import Mathlib

/-!
Verification of the org-policy `Allow` reconciliation engine
(`surface/org_policies/allow.py`): a shallow embedding of the policy data
model and of the three mutation workflows (allow-values, remove-values,
allow-all), together with theorems settling the specified properties.

The file `allow.py` is the authoritative source for `Run`, `UpdatePolicy`,
`_AddValues`, `_AllowAllValues` and `_GetMissingAllowedValuesFromRules`.
The helper modules it calls (`org_policy_utils`, `utils`, the exception
classes and the protobuf message classes) are not part of the sources, so
those pieces are modelled from the specification, as marked on each
definition.
-/

namespace OrgPolicy

/-- Modelled from the spec: the `values` message pair of a policy rule
(`GoogleCloudOrgpolicyV2alpha1PolicyPolicyRuleStringValues`): an
`allowedValues` list and a `deniedValues` list of strings, insertion order
preserved. An absent list is represented by `[]`. -/
structure StringValues where
  allowedValues : List String := []
  deniedValues : List String := []
deriving DecidableEq, Repr

/-- Modelled from the spec: one conditional clause of a policy
(`GoogleCloudOrgpolicyV2alpha1PolicyPolicyRule`). `condition` is an opaque
expression string, `none` meaning unconditional; `allowAll` and `denyAll`
are tri-state optional booleans; `values` is an optional pair of value
lists. -/
structure Rule where
  condition : Option String := none
  allowAll : Option Bool := none
  denyAll : Option Bool := none
  values : Option StringValues := none
deriving DecidableEq, Repr

/-- Modelled from the spec: a policy is an ordered sequence of rules. -/
structure Policy where
  rules : List Rule := []
deriving DecidableEq, Repr

/-- Modelled from the spec: a mutation request. `values` mirrors
`args.value` (the positional value list, possibly empty), `remove` mirrors
the `--remove` flag, `condition` mirrors the optional `--condition` flag. -/
structure MutationRequest where
  values : List String := []
  remove : Bool := false
  condition : Option String := none
deriving DecidableEq, Repr

/-- The two error classes raised by the engine:
`invalidInputError` embeds `exceptions.InvalidInputError` (the spec's
`InvalidRequestError`) and `operationNotSupportedError` embeds
`exceptions.OperationNotSupportedError` (the spec's
`UnsupportedOperationError`). -/
inductive OrgPolicyError where
  | invalidInputError
  | operationNotSupportedError
deriving DecidableEq, Repr

deriving instance DecidableEq for Except

/-- The allowed-values list of a rule, `[]` when the `values` message is
absent. -/
def allowedOf (r : Rule) : List String :=
  match r.values with
  | none => []
  | some sv => sv.allowedValues

/-- The denied-values list of a rule, `[]` when the `values` message is
absent. -/
def deniedOf (r : Rule) : List String :=
  match r.values with
  | none => []
  | some sv => sv.deniedValues

/-- Modelled from the spec: condition matching. A rule's condition is an
opaque equality key: a rule matches the request's condition iff the two
condition strings are equal, including the unconditional case where both
are absent. -/
def ruleMatches (r : Rule) (cond : Option String) : Bool :=
  decide (r.condition = cond)

/-- Modelled from the spec: `org_policy_utils.GetMatchingRulesFromPolicy` —
all rules of the policy whose condition equals the given condition. -/
def getMatchingRulesFromPolicy (p : Policy) (cond : Option String) : List Rule :=
  p.rules.filter (fun r => ruleMatches r cond)

/-- Modelled from the spec: `org_policy_utils.GetNonMatchingRulesFromPolicy`
— all rules of the policy whose condition does not equal the given
condition. -/
def getNonMatchingRulesFromPolicy (p : Policy) (cond : Option String) : List Rule :=
  p.rules.filter (fun r => !ruleMatches r cond)

/-- Modelled from the spec: the rule created by
`org_policy_utils.CreateRuleOnPolicy`: a fresh rule carrying only the
given condition, appended to the policy by the caller. -/
def newRuleWithCondition (cond : Option String) : Rule :=
  { condition := cond, allowAll := none, denyAll := none, values := none }

/-- Modelled from the spec: dead rule elimination test — a rule whose
`allowedValues` and `deniedValues` are both empty/absent and whose
`allowAll`/`denyAll` are both unset carries no information and is removed
after a remove-values pass. -/
def ruleIsDead (r : Rule) : Bool :=
  decide (allowedOf r = []) && decide (deniedOf r = []) &&
    decide (r.allowAll = none) && decide (r.denyAll = none)

/-- Modelled from the spec: one matching rule's transformation in the
remove-values workflow targeting `deniedValues`: every requested value is
removed from the rule's denied list. -/
def removeDeniedFromRule (vals : List String) (r : Rule) : Rule :=
  { r with values := r.values.map (fun sv =>
      { sv with deniedValues := sv.deniedValues.filter (fun v => !decide (v ∈ vals)) }) }

/-- Modelled from the spec: one matching rule's transformation in the
remove-values workflow targeting `allowedValues`: every requested value is
removed from the rule's allowed list. -/
def removeAllowedFromRule (vals : List String) (r : Rule) : Rule :=
  { r with values := r.values.map (fun sv =>
      { sv with allowedValues := sv.allowedValues.filter (fun v => !decide (v ∈ vals)) }) }

/-- Modelled from the spec: the remove-values workflow shared by
`utils.RemoveAllowedValuesFromPolicy` and
`utils.RemoveDeniedValuesFromPolicy`: every rule matching the request's
condition has the requested values removed from the targeted list by `f`,
and a matching rule left with no allow/deny information is deleted (dead
rule elimination); non-matching rules are untouched. -/
def removeValuesFromPolicy (f : List String → Rule → Rule)
    (p : Policy) (req : MutationRequest) : Policy :=
  { rules := p.rules.filterMap (fun r =>
      if ruleMatches r req.condition then
        let r' := f req.values r
        if ruleIsDead r' then none else some r'
      else some r) }

/-- Modelled from the spec: `utils.RemoveDeniedValuesFromPolicy`. -/
def removeDeniedValuesFromPolicy (p : Policy) (req : MutationRequest) : Policy :=
  removeValuesFromPolicy removeDeniedFromRule p req

/-- Modelled from the spec: `utils.RemoveAllowedValuesFromPolicy`. -/
def removeAllowedValuesFromPolicy (p : Policy) (req : MutationRequest) : Policy :=
  removeValuesFromPolicy removeAllowedFromRule p req

/-- Helper for `orderedKeys`: walk the list in order, skip any value
already seen, keep the first occurrence of each value. -/
def orderedKeysAux : List String → List String → List String
  | [], _ => []
  | v :: vs, seen =>
    if v ∈ seen then orderedKeysAux vs seen
    else v :: orderedKeysAux vs (v :: seen)

/-- `collections.OrderedDict.fromkeys`: deduplicate a list keeping the
first occurrence of each element, preserving order. -/
def orderedKeys (l : List String) : List String := orderedKeysAux l []

/-- The `existing_values` set of `Allow._GetMissingAllowedValuesFromRules`:
all allowed values chained across the rules that carry a `values` message
(a rule with no `values` message contributes nothing). Membership in this
list is membership in the aggregated set. -/
def aggregateAllowedValues (rules : List Rule) : List String :=
  ((rules.filterMap (fun r => r.values)).map (fun sv => sv.allowedValues)).flatten

/-- `Allow._GetMissingAllowedValuesFromRules`: the unique values of
`values` missing from the set of allowed values aggregated across the
given rules; the request's order is preserved and duplicates are pruned to
their first occurrence. -/
def getMissingAllowedValuesFromRules (rules : List Rule) (values : List String) :
    List String :=
  orderedKeys (values.filter (fun v => !decide (v ∈ aggregateAllowedValues rules)))

/-- The scan of the matching rules in `Allow._AddValues`: visiting rules in
order, the first rule whose `allowAll` is true short-circuits to a no-op,
else the first rule whose `denyAll` is true short-circuits to an error;
otherwise the scan falls through. -/
inductive ScanOutcome where
  | allowAllHit
  | denyAllHit
  | fallThrough
deriving DecidableEq, Repr

/-- The `for rule in rules` loop of `Allow._AddValues`: per rule,
`rule.allowAll` is tested (Python truthiness: only `True` fires) before
`rule.denyAll`. -/
def scanRules : List Rule → ScanOutcome
  | [] => .fallThrough
  | r :: rs =>
    if r.allowAll = some true then .allowAllHit
    else if r.denyAll = some true then .denyAllHit
    else scanRules rs

/-- The tail of `Allow._AddValues` on the target rule: initialize the
`values` message when absent, then append the missing values to
`allowedValues`. -/
def appendAllowedValues (r : Rule) (missing : List String) : Rule :=
  match r.values with
  | none => { r with values := some { allowedValues := missing, deniedValues := [] } }
  | some sv => { r with values := some { sv with allowedValues := sv.allowedValues ++ missing } }

/-- In-place update of the first rule matching `cond` in a rule list:
the embedding of `rule_to_update = rules[0]` followed by mutation of that
rule object inside `new_policy.rules`. -/
def updateFirstMatchingRule : List Rule → Option String → (Rule → Rule) → List Rule
  | [], _, _ => []
  | r :: rs, cond, f =>
    if ruleMatches r cond then f r :: rs
    else r :: updateFirstMatchingRule rs cond f

/-- `Allow._AddValues`: deep-copy the policy (implicit here: values are
immutable), remove the requested values from the denied lists of matching
rules, compute the missing allowed values; if none are missing return the
policy; if no rule matches create a new rule for the condition; otherwise
scan the matching rules (`allowAll` → no-op, `denyAll` → error), then
clear the first matching rule's `allowAll`/`denyAll` and append the
missing values to its allowed list. -/
def addValues (p : Policy) (req : MutationRequest) : Except OrgPolicyError Policy :=
  let newPolicy := removeDeniedValuesFromPolicy p req
  let rules := getMatchingRulesFromPolicy newPolicy req.condition
  let missingValues := getMissingAllowedValuesFromRules rules req.values
  if missingValues = [] then .ok newPolicy
  else if rules = [] then
    .ok { rules := newPolicy.rules ++
            [appendAllowedValues (newRuleWithCondition req.condition) missingValues] }
  else
    match scanRules rules with
    | .allowAllHit => .ok newPolicy
    | .denyAllHit => .error .operationNotSupportedError
    | .fallThrough =>
      .ok { rules := updateFirstMatchingRule newPolicy.rules req.condition
              (fun r => appendAllowedValues
                { r with allowAll := none, denyAll := none } missingValues) }

/-- `Allow._AllowAllValues`: drop every rule matching the request's
condition, then append one fresh rule with that condition and
`allowAll = true`. -/
def allowAllValues (p : Policy) (req : MutationRequest) : Policy :=
  { rules := getNonMatchingRulesFromPolicy p req.condition ++
      [{ newRuleWithCondition req.condition with allowAll := some true }] }

/-- `Allow.UpdatePolicy`: dispatch on the request shape — no values →
allow-all workflow; values with `--remove` → remove-values workflow;
values without `--remove` → add-values workflow. -/
def updatePolicy (p : Policy) (req : MutationRequest) : Except OrgPolicyError Policy :=
  if req.values = [] then .ok (allowAllValues p req)
  else if req.remove then .ok (removeAllowedValuesFromPolicy p req)
  else addValues p req

/-- `Allow.Run` composed with `UpdatePolicy` (the spec's `Reconcile`):
reject a remove request with no values with `InvalidInputError`, otherwise
run the dispatched workflow on the policy. -/
def reconcile (p : Policy) (req : MutationRequest) : Except OrgPolicyError Policy :=
  if req.values = [] ∧ req.remove then .error .invalidInputError
  else updatePolicy p req


/-! ### Basic facts about single-rule operations -/

theorem condition_removeDeniedFromRule (vals : List String) (r : Rule) :
    (removeDeniedFromRule vals r).condition = r.condition := rfl

theorem allowedOf_removeDeniedFromRule (vals : List String) (r : Rule) :
    allowedOf (removeDeniedFromRule vals r) = allowedOf r := by
  obtain ⟨c, a, d, v⟩ := r
  cases v <;> rfl

theorem deniedOf_removeDeniedFromRule (vals : List String) (r : Rule) :
    deniedOf (removeDeniedFromRule vals r) =
      (deniedOf r).filter (fun v => !decide (v ∈ vals)) := by
  obtain ⟨c, a, d, v⟩ := r
  cases v <;> rfl

theorem removeDeniedFromRule_eq_self (vals : List String) (r : Rule)
    (h : ∀ v ∈ deniedOf r, v ∉ vals) : removeDeniedFromRule vals r = r := by
  obtain ⟨c, a, d, v⟩ := r
  cases v with
  | none => rfl
  | some sv =>
    have hf : sv.deniedValues.filter (fun v => !decide (v ∈ vals)) = sv.deniedValues :=
      List.filter_eq_self.mpr (fun x hx => by
        simpa using h x (by simpa [deniedOf] using hx))
    simp [removeDeniedFromRule, hf]

theorem appendAllowedValues_eq (r : Rule) (m : List String) :
    appendAllowedValues r m =
      { condition := r.condition, allowAll := r.allowAll, denyAll := r.denyAll,
        values := some { allowedValues := allowedOf r ++ m, deniedValues := deniedOf r } } := by
  obtain ⟨c, a, d, v⟩ := r
  cases v <;> simp [appendAllowedValues, allowedOf, deniedOf]

theorem ruleIsDead_false_of_allowed (r : Rule) (h : allowedOf r ≠ []) :
    ruleIsDead r = false := by
  simp [ruleIsDead, h]

/-! ### `orderedKeys` and the aggregated allowed-value set -/

theorem mem_orderedKeysAux : ∀ (l seen : List String) (v : String),
    v ∈ orderedKeysAux l seen ↔ v ∈ l ∧ v ∉ seen := by
  intro l
  induction l with
  | nil => intro seen v; simp [orderedKeysAux]
  | cons w vs ih =>
    intro seen v
    rw [orderedKeysAux]
    by_cases hw : w ∈ seen
    · rw [if_pos hw, ih]
      constructor
      · rintro ⟨h1, h2⟩
        exact ⟨List.mem_cons_of_mem _ h1, h2⟩
      · rintro ⟨h1, h2⟩
        rcases List.mem_cons.mp h1 with rfl | h1
        · exact absurd hw h2
        · exact ⟨h1, h2⟩
    · rw [if_neg hw]
      rcases eq_or_ne v w with rfl | hv
      · simp [hw]
      · simp only [List.mem_cons, hv, false_or]
        rw [ih]
        simp [hv]

theorem mem_orderedKeys (l : List String) (v : String) : v ∈ orderedKeys l ↔ v ∈ l := by
  rw [orderedKeys, mem_orderedKeysAux]
  simp

theorem orderedKeys_eq_nil_iff (l : List String) : orderedKeys l = [] ↔ l = [] := by
  cases l with
  | nil => simp [orderedKeys, orderedKeysAux]
  | cons v vs => simp [orderedKeys, orderedKeysAux]

theorem mem_aggregateAllowedValues {v : String} {rules : List Rule} :
    v ∈ aggregateAllowedValues rules ↔ ∃ r ∈ rules, v ∈ allowedOf r := by
  simp only [aggregateAllowedValues, List.mem_flatten, List.mem_map, List.mem_filterMap]
  constructor
  · rintro ⟨l, ⟨sv, ⟨r, hr, hrv⟩, rfl⟩, hv⟩
    exact ⟨r, hr, by simp [allowedOf, hrv, hv]⟩
  · rintro ⟨r, hr, hv⟩
    cases hrv : r.values with
    | none => simp [allowedOf, hrv] at hv
    | some sv =>
      exact ⟨sv.allowedValues, ⟨sv, ⟨r, hr, hrv⟩, rfl⟩, by simpa [allowedOf, hrv] using hv⟩

theorem getMissing_eq_nil_iff (rules : List Rule) (values : List String) :
    getMissingAllowedValuesFromRules rules values = [] ↔
      ∀ v ∈ values, v ∈ aggregateAllowedValues rules := by
  rw [getMissingAllowedValuesFromRules, orderedKeys_eq_nil_iff, List.filter_eq_nil_iff]
  simp

theorem filterMap_eq_self_of {α : Type _} :
    ∀ (l : List α) (f : α → Option α), (∀ x ∈ l, f x = some x) → l.filterMap f = l := by
  intro l f
  induction l with
  | nil => intro _; rfl
  | cons x xs ih =>
    intro h
    have hx : f x = some x := h x (List.mem_cons_self x xs)
    have hxs := ih (fun y hy => h y (List.mem_cons_of_mem x hy))
    simp [List.filterMap_cons, hx, hxs]

/-! ### Policy-level facts about the remove-values pass -/

theorem removeValuesFromPolicy_eq_self (f : List String → Rule → Rule)
    (p : Policy) (req : MutationRequest)
    (h : ∀ r ∈ p.rules, ruleMatches r req.condition = true →
      f req.values r = r ∧ ruleIsDead r = false) :
    removeValuesFromPolicy f p req = p := by
  obtain ⟨rules⟩ := p
  simp only [removeValuesFromPolicy]
  congr 1
  apply filterMap_eq_self_of
  intro r hr
  by_cases hm : ruleMatches r req.condition = true
  · obtain ⟨h1, h2⟩ := h r hr hm
    simp [hm, h1, h2]
  · simp [hm]

theorem clean_after_removeDenied (p : Policy) (req : MutationRequest) :
    ∀ r ∈ (removeDeniedValuesFromPolicy p req).rules, ruleMatches r req.condition = true →
      (∀ v ∈ deniedOf r, v ∉ req.values) ∧ ruleIsDead r = false := by
  intro r hr hm
  simp only [removeDeniedValuesFromPolicy, removeValuesFromPolicy,
    List.mem_filterMap] at hr
  obtain ⟨r₀, hr₀, hf⟩ := hr
  by_cases h₀ : ruleMatches r₀ req.condition = true
  · rw [if_pos h₀] at hf
    by_cases hd : ruleIsDead (removeDeniedFromRule req.values r₀) = true
    · rw [if_pos hd] at hf
      exact absurd hf (by simp)
    · rw [if_neg hd] at hf
      have hre : removeDeniedFromRule req.values r₀ = r := by
        exact Option.some.inj hf
      subst hre
      refine ⟨?_, by simpa using hd⟩
      intro v hv
      rw [deniedOf_removeDeniedFromRule] at hv
      have := List.mem_filter.mp hv
      simpa using this.2
  · rw [if_neg h₀] at hf
    have hre : r₀ = r := Option.some.inj hf
    subst hre
    exact absurd hm h₀

theorem removeDenied_eq_self_of_clean (q : Policy) (req : MutationRequest)
    (h : ∀ r ∈ q.rules, ruleMatches r req.condition = true →
      (∀ v ∈ deniedOf r, v ∉ req.values) ∧ ruleIsDead r = false) :
    removeDeniedValuesFromPolicy q req = q := by
  apply removeValuesFromPolicy_eq_self
  intro r hr hm
  obtain ⟨h1, h2⟩ := h r hr hm
  exact ⟨removeDeniedFromRule_eq_self _ _ h1, h2⟩

theorem removeDenied_idem (p : Policy) (req : MutationRequest) :
    removeDeniedValuesFromPolicy (removeDeniedValuesFromPolicy p req) req =
      removeDeniedValuesFromPolicy p req :=
  removeDenied_eq_self_of_clean _ _ (clean_after_removeDenied p req)

/-! ### The matching-rule scan of the add workflow -/

theorem scanRules_fallThrough_iff (rules : List Rule) :
    scanRules rules = .fallThrough ↔
      ∀ r ∈ rules, r.allowAll ≠ some true ∧ r.denyAll ≠ some true := by
  induction rules with
  | nil => simp [scanRules]
  | cons r rs ih =>
    rw [scanRules]
    by_cases ha : r.allowAll = some true
    · simp [ha, List.forall_mem_cons]
    · by_cases hd : r.denyAll = some true
      · simp [ha, hd, List.forall_mem_cons]
      · simp [ha, hd, ih, List.forall_mem_cons]

theorem scanRules_denyAllHit_iff (rules : List Rule) :
    scanRules rules = .denyAllHit ↔
      ∃ l₁ d l₂, rules = l₁ ++ d :: l₂ ∧ d.allowAll ≠ some true ∧ d.denyAll = some true ∧
        ∀ r ∈ l₁, r.allowAll ≠ some true ∧ r.denyAll ≠ some true := by
  induction rules with
  | nil =>
    simp only [scanRules]
    constructor
    · intro h; exact absurd h (by simp)
    · rintro ⟨l₁, d, l₂, h, -⟩
      exact absurd h.symm (List.append_ne_nil_of_right_ne_nil l₁ (by simp))
  | cons r rs ih =>
    rw [scanRules]
    by_cases ha : r.allowAll = some true
    · rw [if_pos ha]
      constructor
      · intro h; exact absurd h (by simp)
      · rintro ⟨l₁, d, l₂, heq, hd1, hd2, hpre⟩
        cases l₁ with
        | nil =>
          obtain ⟨rfl, -⟩ := List.cons.inj heq
          exact absurd ha hd1
        | cons r' l₁' =>
          obtain ⟨rfl, -⟩ := List.cons.inj heq
          exact absurd ha (hpre r (List.mem_cons_self _ _)).1
    · by_cases hd : r.denyAll = some true
      · rw [if_neg ha, if_pos hd]
        constructor
        · intro _
          exact ⟨[], r, rs, rfl, ha, hd, by simp⟩
        · intro _; rfl
      · rw [if_neg ha, if_neg hd, ih]
        constructor
        · rintro ⟨l₁, d, l₂, rfl, hd1, hd2, hpre⟩
          refine ⟨r :: l₁, d, l₂, rfl, hd1, hd2, ?_⟩
          intro x hx
          rcases List.mem_cons.mp hx with rfl | hx
          · exact ⟨ha, hd⟩
          · exact hpre x hx
        · rintro ⟨l₁, d, l₂, heq, hd1, hd2, hpre⟩
          cases l₁ with
          | nil =>
            obtain ⟨rfl, -⟩ := List.cons.inj heq
            exact absurd hd2 hd
          | cons r' l₁' =>
            obtain ⟨rfl, htl⟩ := List.cons.inj heq
            exact ⟨l₁', d, l₂, htl, hd1, hd2,
              fun x hx => hpre x (List.mem_cons_of_mem _ hx)⟩

theorem scanRules_allowAllHit_iff (rules : List Rule) :
    scanRules rules = .allowAllHit ↔
      ∃ l₁ a l₂, rules = l₁ ++ a :: l₂ ∧ a.allowAll = some true ∧
        ∀ r ∈ l₁, r.allowAll ≠ some true ∧ r.denyAll ≠ some true := by
  induction rules with
  | nil =>
    simp only [scanRules]
    constructor
    · intro h; exact absurd h (by simp)
    · rintro ⟨l₁, a, l₂, h, -⟩
      exact absurd h.symm (List.append_ne_nil_of_right_ne_nil l₁ (by simp))
  | cons r rs ih =>
    rw [scanRules]
    by_cases ha : r.allowAll = some true
    · rw [if_pos ha]
      constructor
      · intro _
        exact ⟨[], r, rs, rfl, ha, by simp⟩
      · intro _; rfl
    · by_cases hd : r.denyAll = some true
      · rw [if_neg ha, if_pos hd]
        constructor
        · intro h; exact absurd h (by simp)
        · rintro ⟨l₁, a, l₂, heq, ha1, hpre⟩
          cases l₁ with
          | nil =>
            obtain ⟨rfl, -⟩ := List.cons.inj heq
            exact absurd ha1 ha
          | cons r' l₁' =>
            obtain ⟨rfl, -⟩ := List.cons.inj heq
            exact absurd hd (hpre r (List.mem_cons_self _ _)).2
      · rw [if_neg ha, if_neg hd, ih]
        constructor
        · rintro ⟨l₁, a, l₂, rfl, ha1, hpre⟩
          refine ⟨r :: l₁, a, l₂, rfl, ha1, ?_⟩
          intro x hx
          rcases List.mem_cons.mp hx with rfl | hx
          · exact ⟨ha, hd⟩
          · exact hpre x hx
        · rintro ⟨l₁, a, l₂, heq, ha1, hpre⟩
          cases l₁ with
          | nil =>
            obtain ⟨rfl, -⟩ := List.cons.inj heq
            exact absurd ha1 ha
          | cons r' l₁' =>
            obtain ⟨rfl, htl⟩ := List.cons.inj heq
            exact ⟨l₁', a, l₂, htl, ha1,
              fun x hx => hpre x (List.mem_cons_of_mem _ hx)⟩

/-! ### Updating the first matching rule -/

theorem updateFirst_decomp (cond : Option String) (f : Rule → Rule) :
    ∀ (l : List Rule) (r₀ : Rule) (rest : List Rule),
      l.filter (fun r => ruleMatches r cond) = r₀ :: rest →
      ∃ l₁ l₂, l = l₁ ++ r₀ :: l₂ ∧ (∀ r ∈ l₁, ruleMatches r cond = false) ∧
        updateFirstMatchingRule l cond f = l₁ ++ f r₀ :: l₂ ∧
        l₂.filter (fun r => ruleMatches r cond) = rest := by
  intro l
  induction l with
  | nil => intro r₀ rest h; simp at h
  | cons r rs ih =>
    intro r₀ rest h
    by_cases hm : ruleMatches r cond = true
    · simp only [List.filter_cons, hm, if_true] at h
      obtain ⟨rfl, hrest⟩ := List.cons.inj h
      refine ⟨[], rs, rfl, by simp, ?_, hrest⟩
      rw [updateFirstMatchingRule, if_pos hm]
      rfl
    · simp only [List.filter_cons, hm, if_false] at h
      obtain ⟨l₁, l₂, rfl, h1, h2, h3⟩ := ih r₀ rest h
      refine ⟨r :: l₁, l₂, rfl, ?_, ?_, h3⟩
      · intro x hx
        rcases List.mem_cons.mp hx with rfl | hx
        · simpa using hm
        · exact h1 x hx
      · rw [updateFirstMatchingRule, if_neg hm, h2]
        rfl

/-! ### Dispatch of `reconcile` and branch lemmas for `addValues` -/

theorem reconcile_eq_addValues {p : Policy} {req : MutationRequest}
    (hv : req.values ≠ []) (hrem : req.remove = false) :
    reconcile p req = addValues p req := by
  simp [reconcile, updatePolicy, hv, hrem]

theorem reconcile_eq_allowAll {p : Policy} {req : MutationRequest}
    (hv : req.values = []) (hrem : req.remove = false) :
    reconcile p req = .ok (allowAllValues p req) := by
  simp [reconcile, updatePolicy, hv, hrem]

theorem reconcile_eq_remove {p : Policy} {req : MutationRequest}
    (hv : req.values ≠ []) (hrem : req.remove = true) :
    reconcile p req = .ok (removeAllowedValuesFromPolicy p req) := by
  simp [reconcile, updatePolicy, hv, hrem]

theorem addValues_of_missing_nil {p : Policy} {req : MutationRequest}
    (h : getMissingAllowedValuesFromRules
      (getMatchingRulesFromPolicy (removeDeniedValuesFromPolicy p req) req.condition)
      req.values = []) :
    addValues p req = .ok (removeDeniedValuesFromPolicy p req) := by
  simp only [addValues]
  rw [if_pos h]

theorem addValues_of_rules_nil {p : Policy} {req : MutationRequest}
    (hm : getMissingAllowedValuesFromRules
      (getMatchingRulesFromPolicy (removeDeniedValuesFromPolicy p req) req.condition)
      req.values ≠ [])
    (hr : getMatchingRulesFromPolicy (removeDeniedValuesFromPolicy p req)
      req.condition = []) :
    addValues p req = .ok
      { rules := (removeDeniedValuesFromPolicy p req).rules ++
          [appendAllowedValues (newRuleWithCondition req.condition)
            (getMissingAllowedValuesFromRules
              (getMatchingRulesFromPolicy (removeDeniedValuesFromPolicy p req)
                req.condition) req.values)] } := by
  simp only [addValues]
  rw [if_neg hm, if_pos hr]

theorem addValues_of_scan_allow {p : Policy} {req : MutationRequest}
    (hm : getMissingAllowedValuesFromRules
      (getMatchingRulesFromPolicy (removeDeniedValuesFromPolicy p req) req.condition)
      req.values ≠ [])
    (hs : scanRules (getMatchingRulesFromPolicy (removeDeniedValuesFromPolicy p req)
      req.condition) = .allowAllHit) :
    addValues p req = .ok (removeDeniedValuesFromPolicy p req) := by
  have hr : getMatchingRulesFromPolicy (removeDeniedValuesFromPolicy p req)
      req.condition ≠ [] := by
    intro h
    rw [h] at hs
    exact absurd hs (by simp [scanRules])
  simp only [addValues]
  rw [if_neg hm, if_neg hr, hs]

theorem addValues_of_scan_deny {p : Policy} {req : MutationRequest}
    (hm : getMissingAllowedValuesFromRules
      (getMatchingRulesFromPolicy (removeDeniedValuesFromPolicy p req) req.condition)
      req.values ≠ [])
    (hs : scanRules (getMatchingRulesFromPolicy (removeDeniedValuesFromPolicy p req)
      req.condition) = .denyAllHit) :
    addValues p req = .error .operationNotSupportedError := by
  have hr : getMatchingRulesFromPolicy (removeDeniedValuesFromPolicy p req)
      req.condition ≠ [] := by
    intro h
    rw [h] at hs
    exact absurd hs (by simp [scanRules])
  simp only [addValues]
  rw [if_neg hm, if_neg hr, hs]

theorem addValues_of_scan_fallThrough {p : Policy} {req : MutationRequest}
    (hm : getMissingAllowedValuesFromRules
      (getMatchingRulesFromPolicy (removeDeniedValuesFromPolicy p req) req.condition)
      req.values ≠ [])
    (hr : getMatchingRulesFromPolicy (removeDeniedValuesFromPolicy p req)
      req.condition ≠ [])
    (hs : scanRules (getMatchingRulesFromPolicy (removeDeniedValuesFromPolicy p req)
      req.condition) = .fallThrough) :
    addValues p req = .ok
      { rules := updateFirstMatchingRule (removeDeniedValuesFromPolicy p req).rules
          req.condition
          (fun r => appendAllowedValues { r with allowAll := none, denyAll := none }
            (getMissingAllowedValuesFromRules
              (getMatchingRulesFromPolicy (removeDeniedValuesFromPolicy p req)
                req.condition) req.values)) } := by
  simp only [addValues]
  rw [if_neg hm, if_neg hr, hs]

theorem addValues_ne_invalidInput (p : Policy) (req : MutationRequest) :
    addValues p req ≠ Except.error OrgPolicyError.invalidInputError := by
  simp only [addValues]
  split
  · simp
  · split
    · simp
    · split <;> simp

/-! ### The allow-all workflow -/

theorem allowAllValues_rules (p : Policy) (req : MutationRequest) :
    allowAllValues p req =
      { rules := p.rules.filter (fun r => !ruleMatches r req.condition) ++
          [{ condition := req.condition, allowAll := some true, denyAll := none,
             values := none }] } := rfl

theorem getMatching_allowAllValues (p : Policy) (req : MutationRequest) :
    getMatchingRulesFromPolicy (allowAllValues p req) req.condition =
      [{ condition := req.condition, allowAll := some true, denyAll := none,
         values := none }] := by
  rw [allowAllValues_rules, getMatchingRulesFromPolicy]
  rw [List.filter_append, List.filter_filter]
  have h1 : List.filter
      (fun r => ruleMatches r req.condition && !ruleMatches r req.condition) p.rules = [] :=
    List.filter_eq_nil_iff.mpr (fun r _ => by
      cases h : ruleMatches r req.condition <;> simp [h])
  rw [h1]
  simp [ruleMatches]

theorem allowAllValues_idem (p : Policy) (req : MutationRequest) :
    allowAllValues (allowAllValues p req) req = allowAllValues p req := by
  simp only [allowAllValues, getNonMatchingRulesFromPolicy]
  congr 1
  rw [List.filter_append, List.filter_filter]
  have h1 : List.filter
      (fun r => !ruleMatches r req.condition && !ruleMatches r req.condition) p.rules =
      List.filter (fun r => !ruleMatches r req.condition) p.rules :=
    List.filter_congr (fun r _ => by cases h : ruleMatches r req.condition <;> simp [h])
  have h2 : List.filter (fun r => !ruleMatches r req.condition)
      [{ newRuleWithCondition req.condition with allowAll := some true }] = [] := by
    simp [ruleMatches, newRuleWithCondition]
  rw [h1, h2, List.append_nil]

theorem removeValues_singleton_dead (f : List String → Rule → Rule)
    (req : MutationRequest) (r : Rule)
    (hmatch : ruleMatches r req.condition = true)
    (hdead : ruleIsDead (f req.values r) = true) :
    removeValuesFromPolicy f ⟨[r]⟩ req = ⟨[]⟩ := by
  rw [removeValuesFromPolicy]
  congr 1
  simp only [List.filterMap_cons, List.filterMap_nil, hmatch, if_true, hdead]

/-! ### Claim theorems -/

/-- C2: `reconcile` fails with `InvalidInputError` (the spec's
`InvalidRequestError`) if and only if the request asks for removal with an
empty value list. The check sits in `Allow.Run` ahead of every workflow,
and no workflow produces that error, so no mutation is attempted on that
path (the embedding is pure, so no partial state can escape in any
case). -/
theorem reconcile_invalidInput_iff (p : Policy) (req : MutationRequest) :
    reconcile p req = .error .invalidInputError ↔
      req.remove = true ∧ req.values = [] := by
  cases hrem : req.remove with
  | true =>
    cases hv : req.values with
    | nil => simp [reconcile, hv, hrem]
    | cons x xs =>
      rw [reconcile_eq_remove (by simp [hv]) hrem]
      simp [hv]
  | false =>
    cases hv : req.values with
    | nil =>
      rw [reconcile_eq_allowAll hv hrem]
      simp [hrem]
    | cons x xs =>
      rw [reconcile_eq_addValues (by simp [hv]) hrem]
      simp [hrem, addValues_ne_invalidInput p req]

/-- C1: an add-values request (non-empty values, `remove = false`) whose
matching-rule scan reaches a rule with `denyAll = true` — that is, some
missing values remain after the denied-values pass, and among the rules
matching the condition a rule with `denyAll = true` (and not
`allowAll = true`) comes before any rule with either flag set — makes
`reconcile` fail with `OperationNotSupportedError` (the spec's
`UnsupportedOperationError`). The result is an error, not a policy, and
the embedding is pure, so the caller's policy is untouched and no
partially-mutated policy is ever returned. -/
theorem addValues_deny_conflict (p : Policy) (req : MutationRequest)
    (hv : req.values ≠ []) (hrem : req.remove = false)
    (hm : getMissingAllowedValuesFromRules
      (getMatchingRulesFromPolicy (removeDeniedValuesFromPolicy p req) req.condition)
      req.values ≠ [])
    (hscan : ∃ l₁ d l₂,
      getMatchingRulesFromPolicy (removeDeniedValuesFromPolicy p req) req.condition =
        l₁ ++ d :: l₂ ∧ d.allowAll ≠ some true ∧ d.denyAll = some true ∧
        ∀ r ∈ l₁, r.allowAll ≠ some true ∧ r.denyAll ≠ some true) :
    reconcile p req = .error .operationNotSupportedError := by
  rw [reconcile_eq_addValues hv hrem]
  exact addValues_of_scan_deny hm ((scanRules_denyAllHit_iff _).mpr hscan)

/-- The spec's deny-conflict test fixture: one rule
`{condition: C, denyAll: true}`. -/
def denyAllRule : Rule :=
  { condition := some "C", allowAll := none, denyAll := some true, values := none }

/-- A policy holding just `denyAllRule`. -/
def denyPolicy : Policy := ⟨[denyAllRule]⟩

/-- The request `Add(values=[A], condition=C)`. -/
def addAReq : MutationRequest :=
  { values := ["A"], remove := false, condition := some "C" }

/-- C1 witness: `Add(values=[A], condition=C)` against
`{condition: C, denyAll: true}` fails with `OperationNotSupportedError`. -/
theorem addValues_deny_conflict_witness :
    reconcile denyPolicy addAReq = .error .operationNotSupportedError :=
  addValues_deny_conflict denyPolicy addAReq (by decide) rfl (by decide)
    ⟨[], denyAllRule, [], by decide, by decide, by decide, by decide⟩

/-- C3: with empty request values (allow-all workflow), the result is
exactly the non-matching rules followed by one fresh rule with the
request's condition, `allowAll = true` and no value lists; that rule is
the only one matching the condition in the result. -/
theorem allowAll_supersedes (p : Policy) (req : MutationRequest)
    (hv : req.values = []) (hrem : req.remove = false) :
    reconcile p req = .ok
      { rules := p.rules.filter (fun r => !ruleMatches r req.condition) ++
          [{ condition := req.condition, allowAll := some true, denyAll := none,
             values := none }] } ∧
    getMatchingRulesFromPolicy
      { rules := p.rules.filter (fun r => !ruleMatches r req.condition) ++
          [{ condition := req.condition, allowAll := some true, denyAll := none,
             values := none }] } req.condition =
      [{ condition := req.condition, allowAll := some true, denyAll := none,
         values := none }] := by
  have h := getMatching_allowAllValues p req
  rw [allowAllValues_rules] at h
  exact ⟨by rw [reconcile_eq_allowAll hv hrem, allowAllValues_rules], h⟩

/-- The spec's allow-all fixture: `{condition: C, allowedValues: [A]}` and
`{condition: C, deniedValues: [B]}`. -/
def twoRulePolicy : Policy :=
  ⟨[{ condition := some "C", allowAll := none, denyAll := none,
      values := some { allowedValues := ["A"], deniedValues := [] } },
    { condition := some "C", allowAll := none, denyAll := none,
      values := some { allowedValues := [], deniedValues := ["B"] } }]⟩

/-- The request `Allow-all(condition=C)`. -/
def allowAllCReq : MutationRequest :=
  { values := [], remove := false, condition := some "C" }

/-- C3 witness: the spec's allow-all-supersedes fixture evaluated. -/
theorem allowAll_supersedes_witness :
    reconcile twoRulePolicy allowAllCReq = .ok
      { rules := twoRulePolicy.rules.filter
          (fun r => !ruleMatches r allowAllCReq.condition) ++
          [{ condition := allowAllCReq.condition, allowAll := some true,
             denyAll := none, values := none }] } ∧
    getMatchingRulesFromPolicy
      { rules := twoRulePolicy.rules.filter
          (fun r => !ruleMatches r allowAllCReq.condition) ++
          [{ condition := allowAllCReq.condition, allowAll := some true,
             denyAll := none, values := none }] } allowAllCReq.condition =
      [{ condition := allowAllCReq.condition, allowAll := some true,
         denyAll := none, values := none }] :=
  allowAll_supersedes twoRulePolicy allowAllCReq rfl rfl

/-- C8: the allow-all workflow is idempotent: applying it twice with the
same condition returns the same policy as applying it once, and the result
carries exactly one rule for that condition, an allow-all rule. -/
theorem allowAll_idempotent (p : Policy) (req : MutationRequest)
    (hv : req.values = []) (hrem : req.remove = false) :
    ∃ q, reconcile p req = .ok q ∧ reconcile q req = .ok q ∧
      getMatchingRulesFromPolicy q req.condition =
        [{ condition := req.condition, allowAll := some true, denyAll := none,
           values := none }] := by
  refine ⟨allowAllValues p req, reconcile_eq_allowAll hv hrem, ?_,
    getMatching_allowAllValues p req⟩
  rw [reconcile_eq_allowAll hv hrem, allowAllValues_idem]

/-- C8 witness: allow-all applied twice on the two-rule fixture. -/
theorem allowAll_idempotent_witness :
    ∃ q, reconcile twoRulePolicy allowAllCReq = .ok q ∧
      reconcile q allowAllCReq = .ok q ∧
      getMatchingRulesFromPolicy q allowAllCReq.condition =
        [{ condition := allowAllCReq.condition, allowAll := some true,
           denyAll := none, values := none }] :=
  allowAll_idempotent twoRulePolicy allowAllCReq rfl rfl

/-- C9: from the empty policy, `Add(values=[A,B], condition=C)` followed by
`Remove(values=[A,B], condition=C)` gives back the empty policy — in
particular no rule for condition C remains: the removal leaves the created
rule with empty value lists and unset flags, and dead rule elimination
deletes it. Stated for arbitrary values `a`, `b` and condition `c`. -/
theorem add_remove_round_trip (a b : String) (c : Option String) :
    (reconcile ⟨[]⟩ { values := [a, b], remove := false, condition := c }).bind
      (fun q => reconcile q { values := [a, b], remove := true, condition := c }) =
      .ok ⟨[]⟩ := by
  have hm : getMissingAllowedValuesFromRules ([] : List Rule) [a, b] ≠ [] := by
    rw [getMissingAllowedValuesFromRules, Ne, orderedKeys_eq_nil_iff]
    have : List.filter
        (fun v => !decide (v ∈ aggregateAllowedValues ([] : List Rule))) [a, b] =
        [a, b] :=
      List.filter_eq_self.mpr (fun v _ => by simp [aggregateAllowedValues])
    rw [this]
    simp
  have h1 : reconcile ⟨[]⟩ { values := [a, b], remove := false, condition := c } =
      .ok ⟨[⟨c, none, none, some ⟨orderedKeys [a, b], []⟩⟩]⟩ := by
    rw [reconcile_eq_addValues (by simp) rfl]
    rw [@addValues_of_rules_nil ⟨[]⟩ { values := [a, b], remove := false, condition := c }
      hm rfl]
    rfl
  rw [h1]
  show reconcile ⟨[⟨c, none, none, some ⟨orderedKeys [a, b], []⟩⟩]⟩
    { values := [a, b], remove := true, condition := c } = .ok ⟨[]⟩
  rw [reconcile_eq_remove (by simp) rfl]
  have hfil : (orderedKeys [a, b]).filter
      (fun v => !decide (v ∈ ([a, b] : List String))) = [] :=
    List.filter_eq_nil_iff.mpr (fun v hv => by
      have hv' := (mem_orderedKeys [a, b] v).mp hv
      simp [hv'])
  have hmatch : ruleMatches (⟨c, none, none, some ⟨orderedKeys [a, b], []⟩⟩ : Rule) c =
      true := by
    simp [ruleMatches]
  have hdead : ruleIsDead (removeAllowedFromRule [a, b]
      ⟨c, none, none, some ⟨orderedKeys [a, b], []⟩⟩) = true := by
    have hrule : removeAllowedFromRule [a, b]
        ⟨c, none, none, some ⟨orderedKeys [a, b], []⟩⟩ =
        ⟨c, none, none, some ⟨[], []⟩⟩ := by
      show (⟨c, none, none, some ⟨(orderedKeys [a, b]).filter
        (fun v => !decide (v ∈ ([a, b] : List String))), []⟩⟩ : Rule) =
        ⟨c, none, none, some ⟨[], []⟩⟩
      rw [hfil]
    rw [hrule]
    rfl
  rw [removeAllowedValuesFromPolicy, @removeValues_singleton_dead removeAllowedFromRule
    { values := [a, b], remove := true, condition := c }
    ⟨c, none, none, some ⟨orderedKeys [a, b], []⟩⟩ hmatch hdead]

/-! ### The missing-value computation against the spec wording -/

/-- Stated from the spec, for comparison with the source-translated
`getMissingAllowedValuesFromRules`: "compute `missing = request.values`
minus that aggregate set, preserving the original request order and
removing duplicates", realised by the spec's own recipe "iterate requested
values in order, skip any already present in a membership set, append the
rest". -/
def specMissingValues (rules : List Rule) (values : List String) : List String :=
  values.foldl (fun acc v =>
    if v ∈ aggregateAllowedValues rules ∨ v ∈ acc then acc else acc ++ [v]) []

theorem foldl_dedup_eq (S : List String) :
    ∀ (values acc seen : List String), (∀ v, v ∈ seen ↔ v ∈ acc) →
      values.foldl (fun acc v => if v ∈ S ∨ v ∈ acc then acc else acc ++ [v]) acc =
        acc ++ orderedKeysAux (values.filter (fun v => !decide (v ∈ S))) seen := by
  intro values
  induction values with
  | nil => intro acc seen _; simp [orderedKeysAux]
  | cons v vs ih =>
    intro acc seen hinv
    rw [List.foldl_cons]
    by_cases hS : v ∈ S
    · rw [if_pos (Or.inl hS)]
      have hfil : (v :: vs).filter (fun v => !decide (v ∈ S)) =
          vs.filter (fun v => !decide (v ∈ S)) := by simp [hS]
      rw [hfil]
      exact ih acc seen hinv
    · have hfil : (v :: vs).filter (fun v => !decide (v ∈ S)) =
          v :: vs.filter (fun v => !decide (v ∈ S)) := by simp [hS]
      rw [hfil]
      by_cases hacc : v ∈ acc
      · rw [if_pos (Or.inr hacc)]
        have hseen : v ∈ seen := (hinv v).mpr hacc
        rw [orderedKeysAux, if_pos hseen]
        exact ih acc seen hinv
      · have hcond : ¬(v ∈ S ∨ v ∈ acc) := by
          rintro (h | h)
          · exact hS h
          · exact hacc h
        rw [if_neg hcond]
        have hseen : v ∉ seen := fun h => hacc ((hinv v).mp h)
        rw [orderedKeysAux, if_neg hseen]
        have hinv2 : ∀ w, w ∈ v :: seen ↔ w ∈ acc ++ [v] := by
          intro w
          simp [hinv w, or_comm]
        rw [ih (acc ++ [v]) (v :: seen) hinv2]
        simp

/-- The source computation of the missing values agrees with the spec
wording. -/
theorem getMissing_eq_specMissing (rules : List Rule) (values : List String) :
    getMissingAllowedValuesFromRules rules values = specMissingValues rules values := by
  rw [specMissingValues,
    foldl_dedup_eq (aggregateAllowedValues rules) values [] [] (by simp)]
  simp [getMissingAllowedValuesFromRules, orderedKeys]

theorem getMatching_updateFirst (l : List Rule) (cond : Option String)
    (f : Rule → Rule) (r₀ : Rule) (rest : List Rule)
    (h : l.filter (fun r => ruleMatches r cond) = r₀ :: rest)
    (hf : ruleMatches (f r₀) cond = true) :
    (updateFirstMatchingRule l cond f).filter (fun r => ruleMatches r cond) =
      f r₀ :: rest := by
  obtain ⟨l₁, l₂, -, h1, h2, h3⟩ := updateFirst_decomp cond f l r₀ rest h
  rw [h2, List.filter_append]
  have hl₁ : l₁.filter (fun r => ruleMatches r cond) = [] :=
    List.filter_eq_nil_iff.mpr (fun r hr => by simp [h1 r hr])
  rw [hl₁]
  simp [hf, h3]

theorem addValues_updates_first_matching (p : Policy) (req : MutationRequest)
    (hv : req.values ≠ []) (hrem : req.remove = false)
    (r₀ : Rule) (rest : List Rule)
    (hrules : getMatchingRulesFromPolicy (removeDeniedValuesFromPolicy p req)
      req.condition = r₀ :: rest)
    (hclean : ∀ r ∈ getMatchingRulesFromPolicy (removeDeniedValuesFromPolicy p req)
      req.condition, r.allowAll ≠ some true ∧ r.denyAll ≠ some true)
    (hm : getMissingAllowedValuesFromRules
      (getMatchingRulesFromPolicy (removeDeniedValuesFromPolicy p req) req.condition)
      req.values ≠ []) :
    ∃ q, reconcile p req = .ok q ∧
      getMatchingRulesFromPolicy q req.condition =
        { condition := req.condition, allowAll := none, denyAll := none,
          values := some ⟨allowedOf r₀ ++
            getMissingAllowedValuesFromRules (r₀ :: rest) req.values,
            deniedOf r₀⟩ } :: rest := by
  have hscan : scanRules (getMatchingRulesFromPolicy
      (removeDeniedValuesFromPolicy p req) req.condition) = .fallThrough :=
    (scanRules_fallThrough_iff _).mpr hclean
  have hne : getMatchingRulesFromPolicy (removeDeniedValuesFromPolicy p req)
      req.condition ≠ [] := by
    rw [hrules]
    simp
  have hr₀mem : r₀ ∈ getMatchingRulesFromPolicy (removeDeniedValuesFromPolicy p req)
      req.condition := by
    rw [hrules]
    exact List.mem_cons_self _ _
  have hr₀match : ruleMatches r₀ req.condition = true :=
    (List.mem_filter.mp hr₀mem).2
  have hcondr : r₀.condition = req.condition := by
    simpa [ruleMatches] using hr₀match
  have hrules2 : (removeDeniedValuesFromPolicy p req).rules.filter
      (fun r => ruleMatches r req.condition) = r₀ :: rest := hrules
  have hfr : appendAllowedValues { r₀ with allowAll := none, denyAll := none }
      (getMissingAllowedValuesFromRules
        (getMatchingRulesFromPolicy (removeDeniedValuesFromPolicy p req)
          req.condition) req.values) =
      { condition := req.condition, allowAll := none, denyAll := none,
        values := some ⟨allowedOf r₀ ++
          getMissingAllowedValuesFromRules (r₀ :: rest) req.values,
          deniedOf r₀⟩ } := by
    rw [appendAllowedValues_eq]
    dsimp only
    rw [hrules, hcondr]
    simp [allowedOf, deniedOf]
  have hf : ruleMatches (appendAllowedValues
      { r₀ with allowAll := none, denyAll := none }
      (getMissingAllowedValuesFromRules
        (getMatchingRulesFromPolicy (removeDeniedValuesFromPolicy p req)
          req.condition) req.values)) req.condition = true := by
    rw [hfr]
    simp [ruleMatches]
  have hmain := getMatching_updateFirst (removeDeniedValuesFromPolicy p req).rules
    req.condition
    (fun r => appendAllowedValues { r with allowAll := none, denyAll := none }
      (getMissingAllowedValuesFromRules
        (getMatchingRulesFromPolicy (removeDeniedValuesFromPolicy p req)
          req.condition) req.values))
    r₀ rest hrules2 hf
  dsimp only at hmain
  rw [hfr] at hmain
  exact ⟨_, by rw [reconcile_eq_addValues hv hrem,
      addValues_of_scan_fallThrough hm hne hscan], hmain⟩

/-- C4: in the add-values workflow that reaches the first-matching-rule
update (some rule matches, none carries `allowAll`/`denyAll` true, some
values are missing), the target rule ends with its existing
`allowedValues` followed by exactly the missing values — the request's
values minus the allowed values aggregated over all matching rules of the
post-removal policy, in request order with duplicates pruned to their
first occurrence (`specMissingValues`, stated from the spec's wording, and
proven equal to the source computation). -/
theorem add_missing_values (p : Policy) (req : MutationRequest)
    (hv : req.values ≠ []) (hrem : req.remove = false)
    (r₀ : Rule) (rest : List Rule)
    (hrules : getMatchingRulesFromPolicy (removeDeniedValuesFromPolicy p req)
      req.condition = r₀ :: rest)
    (hclean : ∀ r ∈ getMatchingRulesFromPolicy (removeDeniedValuesFromPolicy p req)
      req.condition, r.allowAll ≠ some true ∧ r.denyAll ≠ some true)
    (hm : getMissingAllowedValuesFromRules
      (getMatchingRulesFromPolicy (removeDeniedValuesFromPolicy p req) req.condition)
      req.values ≠ []) :
    ∃ q, reconcile p req = .ok q ∧
      getMissingAllowedValuesFromRules (r₀ :: rest) req.values =
        specMissingValues (r₀ :: rest) req.values ∧
      getMatchingRulesFromPolicy q req.condition =
        { condition := req.condition, allowAll := none, denyAll := none,
          values := some ⟨allowedOf r₀ ++ specMissingValues (r₀ :: rest) req.values,
            deniedOf r₀⟩ } :: rest := by
  obtain ⟨q, hq, hmatch⟩ :=
    addValues_updates_first_matching p req hv hrem r₀ rest hrules hclean hm
  refine ⟨q, hq, getMissing_eq_specMissing _ _, ?_⟩
  rw [← getMissing_eq_specMissing]
  exact hmatch

/-- The spec's deduplication fixture rule: `{allowedValues: [B]}`, no
condition. -/
def dedupRule : Rule :=
  { condition := none, allowAll := none, denyAll := none,
    values := some { allowedValues := ["B"], deniedValues := [] } }

/-- A policy holding just `dedupRule`. -/
def dedupPolicy : Policy := ⟨[dedupRule]⟩

/-- The request `Add(values=[A,B,A], condition=None)`. -/
def dedupReq : MutationRequest :=
  { values := ["A", "B", "A"], remove := false, condition := none }

/-- C4 witness: `Add(values=[A,B,A])` against `{allowedValues: [B]}`
appends exactly the missing value `A` once, after the existing `B`. -/
theorem add_missing_values_witness :
    ∃ q, reconcile dedupPolicy dedupReq = .ok q ∧
      getMissingAllowedValuesFromRules (dedupRule :: []) dedupReq.values =
        specMissingValues (dedupRule :: []) dedupReq.values ∧
      getMatchingRulesFromPolicy q dedupReq.condition =
        { condition := dedupReq.condition, allowAll := none, denyAll := none,
          values := some ⟨allowedOf dedupRule ++
            specMissingValues (dedupRule :: []) dedupReq.values,
            deniedOf dedupRule⟩ } :: [] :=
  add_missing_values dedupPolicy dedupReq (by decide) rfl dedupRule []
    (by decide) (by decide) (by decide)

/-- The scan-order fixture: a matching `denyAll` rule placed before a
matching `allowAll` rule under the same condition. -/
def denyThenAllowPolicy : Policy :=
  ⟨[{ condition := some "C", allowAll := none, denyAll := some true, values := none },
    { condition := some "C", allowAll := some true, denyAll := none, values := none }]⟩

/-- C6 counterexample: `Add(values=[A], condition=C)` against a policy
whose matching rules are `{denyAll: true}` followed by `{allowAll: true}`:
some matching rule has `allowAll = true` and values are missing, yet the
engine raises `OperationNotSupportedError` instead of returning the policy
unchanged — the scan honours rule order, not mere existence of an
allow-all rule. -/
theorem scan_order_counterexample :
    (∃ r ∈ getMatchingRulesFromPolicy
        (removeDeniedValuesFromPolicy denyThenAllowPolicy addAReq) addAReq.condition,
      r.allowAll = some true) ∧
    getMissingAllowedValuesFromRules
      (getMatchingRulesFromPolicy
        (removeDeniedValuesFromPolicy denyThenAllowPolicy addAReq) addAReq.condition)
      addAReq.values ≠ [] ∧
    reconcile denyThenAllowPolicy addAReq = .error .operationNotSupportedError := by
  decide

/-- C6 (amended): with missing values present, if the scan of the matching
rules — visiting them in policy order, testing `allowAll` before `denyAll`
at each rule — reaches a rule with `allowAll = true` first, the
post-denied-removal policy is returned unchanged (a no-op, not an error);
if no matching rule carries `allowAll` or `denyAll` true, the first
matching rule becomes the target: its `allowAll`/`denyAll` fields are
cleared to unset and the missing values are appended to its allowed
list. -/
theorem add_scan_behavior (p : Policy) (req : MutationRequest)
    (hv : req.values ≠ []) (hrem : req.remove = false)
    (hm : getMissingAllowedValuesFromRules
      (getMatchingRulesFromPolicy (removeDeniedValuesFromPolicy p req) req.condition)
      req.values ≠ []) :
    ((∃ l₁ a l₂, getMatchingRulesFromPolicy (removeDeniedValuesFromPolicy p req)
        req.condition = l₁ ++ a :: l₂ ∧ a.allowAll = some true ∧
        ∀ r ∈ l₁, r.allowAll ≠ some true ∧ r.denyAll ≠ some true) →
      reconcile p req = .ok (removeDeniedValuesFromPolicy p req)) ∧
    ((∀ r ∈ getMatchingRulesFromPolicy (removeDeniedValuesFromPolicy p req)
        req.condition, r.allowAll ≠ some true ∧ r.denyAll ≠ some true) →
      ∀ r₀ rest, getMatchingRulesFromPolicy (removeDeniedValuesFromPolicy p req)
        req.condition = r₀ :: rest →
      ∃ q, reconcile p req = .ok q ∧
        getMatchingRulesFromPolicy q req.condition =
          { condition := req.condition, allowAll := none, denyAll := none,
            values := some ⟨allowedOf r₀ ++
              getMissingAllowedValuesFromRules (r₀ :: rest) req.values,
              deniedOf r₀⟩ } :: rest) := by
  constructor
  · intro hallow
    rw [reconcile_eq_addValues hv hrem]
    exact addValues_of_scan_allow hm ((scanRules_allowAllHit_iff _).mpr hallow)
  · intro hclean r₀ rest hrules
    exact addValues_updates_first_matching p req hv hrem r₀ rest hrules hclean hm

/-- The scan-order fixture with the allow-all rule first. -/
def allowThenDenyPolicy : Policy :=
  ⟨[{ condition := some "C", allowAll := some true, denyAll := none, values := none },
    { condition := some "C", allowAll := none, denyAll := some true, values := none }]⟩

/-- C6 witness: the amended scan behaviour at the allow-all-first
fixture. -/
theorem add_scan_behavior_witness :
    ((∃ l₁ a l₂, getMatchingRulesFromPolicy
        (removeDeniedValuesFromPolicy allowThenDenyPolicy addAReq) addAReq.condition =
        l₁ ++ a :: l₂ ∧ a.allowAll = some true ∧
        ∀ r ∈ l₁, r.allowAll ≠ some true ∧ r.denyAll ≠ some true) →
      reconcile allowThenDenyPolicy addAReq =
        .ok (removeDeniedValuesFromPolicy allowThenDenyPolicy addAReq)) ∧
    ((∀ r ∈ getMatchingRulesFromPolicy
        (removeDeniedValuesFromPolicy allowThenDenyPolicy addAReq) addAReq.condition,
        r.allowAll ≠ some true ∧ r.denyAll ≠ some true) →
      ∀ r₀ rest, getMatchingRulesFromPolicy
        (removeDeniedValuesFromPolicy allowThenDenyPolicy addAReq) addAReq.condition =
        r₀ :: rest →
      ∃ q, reconcile allowThenDenyPolicy addAReq = .ok q ∧
        getMatchingRulesFromPolicy q addAReq.condition =
          { condition := addAReq.condition, allowAll := none, denyAll := none,
            values := some ⟨allowedOf r₀ ++
              getMissingAllowedValuesFromRules (r₀ :: rest) addAReq.values,
              deniedOf r₀⟩ } :: rest) :=
  add_scan_behavior allowThenDenyPolicy addAReq (by decide) rfl (by decide)

/-- C10: for an add-values request, `reconcile` raises
`OperationNotSupportedError` exactly when, after the denied-values
removal, some requested values are still missing and the scan of the
matching rules in policy order reaches a rule with `denyAll = true` (its
own `allowAll` not true) before any rule with either flag true; in every
other configuration — in particular whenever the missing-value set is
empty, even with a matching `denyAll` rule present, or whenever an
`allowAll = true` rule comes first — no error is raised. -/
theorem add_error_iff (p : Policy) (req : MutationRequest)
    (hv : req.values ≠ []) (hrem : req.remove = false) :
    reconcile p req = .error .operationNotSupportedError ↔
      (getMissingAllowedValuesFromRules
        (getMatchingRulesFromPolicy (removeDeniedValuesFromPolicy p req)
          req.condition) req.values ≠ [] ∧
      ∃ l₁ d l₂, getMatchingRulesFromPolicy (removeDeniedValuesFromPolicy p req)
        req.condition = l₁ ++ d :: l₂ ∧ d.allowAll ≠ some true ∧
        d.denyAll = some true ∧
        ∀ r ∈ l₁, r.allowAll ≠ some true ∧ r.denyAll ≠ some true) := by
  rw [reconcile_eq_addValues hv hrem]
  constructor
  · intro h
    by_cases hm : getMissingAllowedValuesFromRules
        (getMatchingRulesFromPolicy (removeDeniedValuesFromPolicy p req)
          req.condition) req.values = []
    · rw [addValues_of_missing_nil hm] at h
      exact absurd h (by simp)
    · by_cases hr : getMatchingRulesFromPolicy (removeDeniedValuesFromPolicy p req)
          req.condition = []
      · rw [addValues_of_rules_nil hm hr] at h
        exact absurd h (by simp)
      · cases hs : scanRules (getMatchingRulesFromPolicy
            (removeDeniedValuesFromPolicy p req) req.condition) with
        | allowAllHit =>
          rw [addValues_of_scan_allow hm hs] at h
          exact absurd h (by simp)
        | denyAllHit => exact ⟨hm, (scanRules_denyAllHit_iff _).mp hs⟩
        | fallThrough =>
          rw [addValues_of_scan_fallThrough hm hr hs] at h
          exact absurd h (by simp)
  · rintro ⟨hm, hscan⟩
    exact addValues_of_scan_deny hm ((scanRules_denyAllHit_iff _).mpr hscan)

/-- C10 witness: the error characterization at the deny-all fixture. -/
theorem add_error_iff_witness :
    reconcile denyPolicy addAReq = .error .operationNotSupportedError ↔
      (getMissingAllowedValuesFromRules
        (getMatchingRulesFromPolicy (removeDeniedValuesFromPolicy denyPolicy addAReq)
          addAReq.condition) addAReq.values ≠ [] ∧
      ∃ l₁ d l₂, getMatchingRulesFromPolicy
        (removeDeniedValuesFromPolicy denyPolicy addAReq) addAReq.condition =
        l₁ ++ d :: l₂ ∧ d.allowAll ≠ some true ∧ d.denyAll = some true ∧
        ∀ r ∈ l₁, r.allowAll ≠ some true ∧ r.denyAll ≠ some true) :=
  add_error_iff denyPolicy addAReq (by decide) rfl

/-! ### Idempotence of the add workflow -/

theorem allowedOf_appendAllowedValues (r : Rule) (m : List String) :
    allowedOf (appendAllowedValues r m) = allowedOf r ++ m := by
  rw [appendAllowedValues_eq]
  rfl

theorem deniedOf_appendAllowedValues (r : Rule) (m : List String) :
    deniedOf (appendAllowedValues r m) = deniedOf r := by
  rw [appendAllowedValues_eq]
  rfl

theorem condition_appendAllowedValues (r : Rule) (m : List String) :
    (appendAllowedValues r m).condition = r.condition := by
  rw [appendAllowedValues_eq]

theorem mem_getMissing (rules : List Rule) (values : List String) (v : String) :
    v ∈ getMissingAllowedValuesFromRules rules values ↔
      v ∈ values ∧ v ∉ aggregateAllowedValues rules := by
  rw [getMissingAllowedValuesFromRules, orderedKeys, mem_orderedKeysAux]
  simp [List.mem_filter]

/-- C5: the add-values workflow is idempotent — whenever an add request
succeeds, running the identical request on the result returns that result
unchanged. -/
theorem add_idempotent (p : Policy) (req : MutationRequest) (q : Policy)
    (hv : req.values ≠ []) (hrem : req.remove = false)
    (hq : reconcile p req = .ok q) : reconcile q req = .ok q := by
  rw [reconcile_eq_addValues hv hrem] at hq
  rw [reconcile_eq_addValues hv hrem]
  by_cases hm : getMissingAllowedValuesFromRules
      (getMatchingRulesFromPolicy (removeDeniedValuesFromPolicy p req) req.condition)
      req.values = []
  · rw [addValues_of_missing_nil hm] at hq
    obtain rfl : removeDeniedValuesFromPolicy p req = q := Except.ok.inj hq
    have hm2 : getMissingAllowedValuesFromRules
        (getMatchingRulesFromPolicy
          (removeDeniedValuesFromPolicy (removeDeniedValuesFromPolicy p req) req)
          req.condition) req.values = [] := by
      rw [removeDenied_idem]
      exact hm
    rw [addValues_of_missing_nil hm2, removeDenied_idem]
  · by_cases hr : getMatchingRulesFromPolicy (removeDeniedValuesFromPolicy p req)
        req.condition = []
    · rw [addValues_of_rules_nil hm hr] at hq
      obtain rfl : ({ rules := (removeDeniedValuesFromPolicy p req).rules ++
          [appendAllowedValues (newRuleWithCondition req.condition)
            (getMissingAllowedValuesFromRules
              (getMatchingRulesFromPolicy (removeDeniedValuesFromPolicy p req)
                req.condition) req.values)] } : Policy) = q := Except.ok.inj hq
      have hfix : removeDeniedValuesFromPolicy
          ({ rules := (removeDeniedValuesFromPolicy p req).rules ++
            [appendAllowedValues (newRuleWithCondition req.condition)
              (getMissingAllowedValuesFromRules
                (getMatchingRulesFromPolicy (removeDeniedValuesFromPolicy p req)
                  req.condition) req.values)] } : Policy) req =
          { rules := (removeDeniedValuesFromPolicy p req).rules ++
            [appendAllowedValues (newRuleWithCondition req.condition)
              (getMissingAllowedValuesFromRules
                (getMatchingRulesFromPolicy (removeDeniedValuesFromPolicy p req)
                  req.condition) req.values)] } := by
        apply removeDenied_eq_self_of_clean
        intro r hrmem hrmatch
        have hrmem2 : r ∈ (removeDeniedValuesFromPolicy p req).rules ++
            [appendAllowedValues (newRuleWithCondition req.condition)
              (getMissingAllowedValuesFromRules
                (getMatchingRulesFromPolicy (removeDeniedValuesFromPolicy p req)
                  req.condition) req.values)] := hrmem
        rcases List.mem_append.mp hrmem2 with hrold | hrnew
        · exact clean_after_removeDenied p req r hrold hrmatch
        · have hreq : r = appendAllowedValues (newRuleWithCondition req.condition)
              (getMissingAllowedValuesFromRules
                (getMatchingRulesFromPolicy (removeDeniedValuesFromPolicy p req)
                  req.condition) req.values) := by simpa using hrnew
          subst hreq
          constructor
          · rw [deniedOf_appendAllowedValues]
            intro v hv
            exact absurd hv (by simp [deniedOf, newRuleWithCondition])
          · apply ruleIsDead_false_of_allowed
            rw [allowedOf_appendAllowedValues]
            have : allowedOf (newRuleWithCondition req.condition) = [] := rfl
            rw [this, List.nil_append]
            exact hm
      have hmatchq : getMatchingRulesFromPolicy
          ({ rules := (removeDeniedValuesFromPolicy p req).rules ++
            [appendAllowedValues (newRuleWithCondition req.condition)
              (getMissingAllowedValuesFromRules
                (getMatchingRulesFromPolicy (removeDeniedValuesFromPolicy p req)
                  req.condition) req.values)] } : Policy) req.condition =
          [appendAllowedValues (newRuleWithCondition req.condition)
            (getMissingAllowedValuesFromRules
              (getMatchingRulesFromPolicy (removeDeniedValuesFromPolicy p req)
                req.condition) req.values)] := by
        have hstep : getMatchingRulesFromPolicy
            ({ rules := (removeDeniedValuesFromPolicy p req).rules ++
              [appendAllowedValues (newRuleWithCondition req.condition)
                (getMissingAllowedValuesFromRules
                  (getMatchingRulesFromPolicy (removeDeniedValuesFromPolicy p req)
                    req.condition) req.values)] } : Policy) req.condition =
            getMatchingRulesFromPolicy (removeDeniedValuesFromPolicy p req)
              req.condition ++
            List.filter (fun r => ruleMatches r req.condition)
              [appendAllowedValues (newRuleWithCondition req.condition)
                (getMissingAllowedValuesFromRules
                  (getMatchingRulesFromPolicy (removeDeniedValuesFromPolicy p req)
                    req.condition) req.values)] := List.filter_append _ _
        rw [hstep, hr]
        simp [ruleMatches, condition_appendAllowedValues, newRuleWithCondition]
      have hm2 : getMissingAllowedValuesFromRules
          (getMatchingRulesFromPolicy
            (removeDeniedValuesFromPolicy
              ({ rules := (removeDeniedValuesFromPolicy p req).rules ++
                [appendAllowedValues (newRuleWithCondition req.condition)
                  (getMissingAllowedValuesFromRules
                    (getMatchingRulesFromPolicy (removeDeniedValuesFromPolicy p req)
                      req.condition) req.values)] } : Policy) req)
            req.condition) req.values = [] := by
        rw [hfix, hmatchq]
        apply (getMissing_eq_nil_iff _ _).mpr
        intro v hvval
        rw [mem_aggregateAllowedValues]
        refine ⟨_, List.mem_cons_self _ _, ?_⟩
        rw [allowedOf_appendAllowedValues]
        apply List.mem_append_right
        rw [mem_getMissing, hr]
        refine ⟨hvval, ?_⟩
        simp [aggregateAllowedValues]
      rw [addValues_of_missing_nil hm2, hfix]
    · cases hs : scanRules (getMatchingRulesFromPolicy
          (removeDeniedValuesFromPolicy p req) req.condition) with
      | allowAllHit =>
        rw [addValues_of_scan_allow hm hs] at hq
        obtain rfl : removeDeniedValuesFromPolicy p req = q := Except.ok.inj hq
        have hm2 : getMissingAllowedValuesFromRules
            (getMatchingRulesFromPolicy
              (removeDeniedValuesFromPolicy (removeDeniedValuesFromPolicy p req) req)
              req.condition) req.values ≠ [] := by
          rw [removeDenied_idem]
          exact hm
        have hs2 : scanRules (getMatchingRulesFromPolicy
            (removeDeniedValuesFromPolicy (removeDeniedValuesFromPolicy p req) req)
            req.condition) = .allowAllHit := by
          rw [removeDenied_idem]
          exact hs
        rw [addValues_of_scan_allow hm2 hs2, removeDenied_idem]
      | denyAllHit =>
        rw [addValues_of_scan_deny hm hs] at hq
        exact absurd hq (by simp)
      | fallThrough =>
        obtain ⟨r₀, rest, hrules⟩ : ∃ r₀ rest,
            getMatchingRulesFromPolicy (removeDeniedValuesFromPolicy p req)
              req.condition = r₀ :: rest := by
          cases hcase : getMatchingRulesFromPolicy (removeDeniedValuesFromPolicy p req)
              req.condition with
          | nil => exact absurd hcase hr
          | cons x l => exact ⟨x, l, rfl⟩
        rw [addValues_of_scan_fallThrough hm hr hs] at hq
        obtain rfl : _ = q := Except.ok.inj hq
        set P2 := removeDeniedValuesFromPolicy p req with hP2
        set M := getMissingAllowedValuesFromRules
          (getMatchingRulesFromPolicy P2 req.condition) req.values with hMdef
        set f : Rule → Rule := fun r =>
          appendAllowedValues { r with allowAll := none, denyAll := none } M with hfdef
        obtain ⟨l₁, l₂, hp2, hl₁, h2, h3⟩ :=
          updateFirst_decomp req.condition f P2.rules r₀ rest hrules
        have hr₀mem : r₀ ∈ P2.rules := by
          rw [hp2]
          exact List.mem_append_right _ (List.mem_cons_self _ _)
        have hr₀match : ruleMatches r₀ req.condition = true := by
          have hmem : r₀ ∈ getMatchingRulesFromPolicy P2 req.condition := by
            rw [hrules]
            exact List.mem_cons_self _ _
          exact (List.mem_filter.mp hmem).2
        have hr₀clean := clean_after_removeDenied p req r₀ hr₀mem hr₀match
        have hfa : allowedOf (f r₀) = allowedOf r₀ ++ M :=
          allowedOf_appendAllowedValues _ _
        have hfd : deniedOf (f r₀) = deniedOf r₀ :=
          deniedOf_appendAllowedValues _ _
        have hfmatch : ruleMatches (f r₀) req.condition = true := by
          show ruleMatches (appendAllowedValues
            { r₀ with allowAll := none, denyAll := none } M) req.condition = true
          rw [ruleMatches, condition_appendAllowedValues]
          exact hr₀match
        have hfix : removeDeniedValuesFromPolicy
            ⟨updateFirstMatchingRule P2.rules req.condition f⟩ req =
            ⟨updateFirstMatchingRule P2.rules req.condition f⟩ := by
          apply removeDenied_eq_self_of_clean
          intro r hrmem hrmatch
          have hrmem2 : r ∈ l₁ ++ f r₀ :: l₂ := by
            rw [← h2]
            exact hrmem
          rcases List.mem_append.mp hrmem2 with hrl₁ | hrmid
          · exact clean_after_removeDenied p req r
              (by rw [hp2]; exact List.mem_append_left _ hrl₁) hrmatch
          · rcases List.mem_cons.mp hrmid with rfl | hrl₂
            · constructor
              · rw [hfd]
                exact hr₀clean.1
              · apply ruleIsDead_false_of_allowed
                rw [hfa]
                exact List.append_ne_nil_of_right_ne_nil _ hm
            · exact clean_after_removeDenied p req r
                (by rw [hp2]
                    exact List.mem_append_right _ (List.mem_cons_of_mem _ hrl₂))
                hrmatch
        have hmatchq : getMatchingRulesFromPolicy
            ⟨updateFirstMatchingRule P2.rules req.condition f⟩ req.condition =
            f r₀ :: rest :=
          getMatching_updateFirst P2.rules req.condition f r₀ rest hrules hfmatch
        have hm2 : getMissingAllowedValuesFromRules
            (getMatchingRulesFromPolicy
              (removeDeniedValuesFromPolicy
                ⟨updateFirstMatchingRule P2.rules req.condition f⟩ req)
              req.condition) req.values = [] := by
          rw [hfix, hmatchq]
          apply (getMissing_eq_nil_iff _ _).mpr
          intro v hvval
          rw [mem_aggregateAllowedValues]
          by_cases hvagg : v ∈ aggregateAllowedValues (r₀ :: rest)
          · rw [mem_aggregateAllowedValues] at hvagg
            obtain ⟨r, hrmem, hvr⟩ := hvagg
            rcases List.mem_cons.mp hrmem with rfl | hrrest
            · refine ⟨f r, List.mem_cons_self _ _, ?_⟩
              rw [hfa]
              exact List.mem_append_left _ hvr
            · exact ⟨r, List.mem_cons_of_mem _ hrrest, hvr⟩
          · refine ⟨f r₀, List.mem_cons_self _ _, ?_⟩
            rw [hfa]
            apply List.mem_append_right
            rw [hMdef, mem_getMissing, hrules]
            exact ⟨hvval, hvagg⟩
        rw [addValues_of_missing_nil hm2, hfix]

/-- C5 witness: adding `[A]` under condition C to the empty policy yields a
single-rule policy; re-running the same request returns it unchanged. -/
theorem add_idempotent_witness :
    reconcile ⟨[⟨some "C", none, none, some ⟨["A"], []⟩⟩]⟩ addAReq =
      .ok ⟨[⟨some "C", none, none, some ⟨["A"], []⟩⟩]⟩ :=
  add_idempotent ⟨[]⟩ addAReq ⟨[⟨some "C", none, none, some ⟨["A"], []⟩⟩]⟩
    (by decide) rfl (by decide)

end OrgPolicy
